import Mathlib

/-!
Shallow embedding of the hybrid scoring engine of
`advanced_recommender.py` (class `AdvancedRecommender`), over exact
rational arithmetic.  Python floats are modelled as `ℚ`, numpy arrays and
sparse-matrix rows as `List ℚ`, pandas data frames as lists of records.
Two pieces of external library behaviour produce irrational numbers
(sklearn's l2-normalised tfidf projection and its cosine similarity) and
one is explicitly unspecified (the tie behaviour of numpy's quicksort
argsort kernel, which pandas documents as not stable); those enter the
embedding as parameters, and every theorem below quantifies over them, so
it holds in particular for the library's instantiation.
-/

/-- Elementwise scalar multiple of a vector: numpy broadcasting in
`mat.multiply(wts)` scales each selected tfidf row by its weight. -/
def scaleVec (w : ℚ) (v : List ℚ) : List ℚ := v.map (fun x => w * x)

/-- Elementwise vector addition (numpy `+` on equal-length arrays; on the
rectangular matrices of the program all operands have equal length). -/
def addVec (a b : List ℚ) : List ℚ := List.zipWith (fun x y => x + y) a b

/-- Column-wise sum `weighted.sum(axis=0)` of a list of rows of a matrix
whose column count is `ncols` (the fitted vocabulary size). -/
def sumVecs (ncols : Nat) (rows : List (List ℚ)) : List ℚ :=
  rows.foldl addVec (List.replicate ncols 0)

/-- `profile_vec` (advanced_recommender.py, lines 49-65): resolve each
activity entry `(aid, wt)` against the catalog — `m = catalog["appid"] == aid`,
keep the first matching positional index `catalog.index[m][0]` — drop
entries whose id is absent, and return the weighted sum of the matching
tfidf rows; `None` when nothing resolved (`if not idxs`).  `catAppids` is
the catalog's appid column, `tfidf` the fitted row-aligned matrix. -/
def profile_vec (ncols : Nat) (catAppids : List Int) (tfidf : List (List ℚ))
    (recent : List (Int × ℚ)) : Option (List ℚ) :=
  let resolved := recent.filterMap
    (fun e => (catAppids.findIdx? (fun a => a == e.1)).map (fun i => (i, e.2)))
  if resolved.isEmpty then none
  else some (sumVecs ncols (resolved.map (fun p => scaleVec p.2 (tfidf.getD p.1 []))))

/-- Written from the spec's words (section 3, ProfileVector), as amended
for claim C3: the weighted sum `Σ weight_i * vector(id_i)` over exactly
the activity entries whose id is found in the catalog, each weight used
as given (negative weights included, not zeroed); absent when no entry
has a catalog-known id.  Deliberately structured differently from
`profile_vec` (membership filter and a right fold) so that the equality
with the code is a real refinement statement. -/
def spec_profile (ncols : Nat) (catAppids : List Int) (tfidf : List (List ℚ))
    (recent : List (Int × ℚ)) : Option (List ℚ) :=
  let known := recent.filter (fun e => decide (e.1 ∈ catAppids))
  if known = [] then none
  else some (known.foldr
    (fun e acc => addVec
      (scaleVec e.2 (tfidf.getD ((catAppids.findIdx? (fun a => a == e.1)).getD 0) []))
      acc)
    (List.replicate ncols 0))

/-- One update of a Python dict modelled as an association list: an
existing key is overwritten in place, a new key is appended. -/
def dictInsert (d : List (Int × ℚ)) (key : Int) (v : ℚ) : List (Int × ℚ) :=
  if d.any (fun e => e.1 == key) then
    d.map (fun e => if e.1 == key then (e.1, v) else e)
  else d ++ [(key, v)]

/-- `friends_recent.set_index("appid")["playtime_2weeks"].to_dict()`
(line 80): the dict is built key by key in row order, so for a duplicated
appid the LAST row's weight survives. -/
def toDict (friends : List (Int × ℚ)) : List (Int × ℚ) :=
  friends.foldl (fun d e => dictInsert d e.1 e.2) []

/-- Python `dict.get(aid, 0.0)` on the association-list dict. -/
def dictGet (d : List (Int × ℚ)) (key : Int) : Option ℚ :=
  (d.find? (fun e => e.1 == key)).map (fun e => e.2)

/-- `raw_fr` (line 81): the direct friends playtime signal, one value per
candidate appid, `fr_map.get(aid, 0.0)`. -/
def raw_fr (friends : List (Int × ℚ)) (candAppids : List Int) : List ℚ :=
  candAppids.map (fun aid => (dictGet (toDict friends) aid).getD 0)

/-- numpy `np.isclose(a, b)` with the default tolerances:
`|a - b| <= atol + rtol * |b|`, `atol = 1e-8`, `rtol = 1e-5`
(exact in `ℚ`; the code calls it as `np.isclose(max_val, min_val)`). -/
def npIsClose (a b : ℚ) : Bool :=
  decide (|a - b| ≤ 1 / 100000000 + (1 / 100000) * |b|)

/-- `arr.max()` of a numpy array, `0` as junk value on the empty array
(the code only calls it on nonempty arrays). -/
def listMax : List ℚ → ℚ
  | [] => 0
  | x :: xs => xs.foldl max x

/-- `arr.min()`, analogous to `listMax`. -/
def listMin : List ℚ → ℚ
  | [] => 0
  | x :: xs => xs.foldl min x

/-- `_normalize_signal` (lines 83-91): empty arrays pass through; when
`np.isclose(max, min)` the result is `np.zeros_like(arr)`; otherwise
min-max scaling `(arr - min) / (max - min)` elementwise. -/
def normalize_signal (arr : List ℚ) : List ℚ :=
  if arr.length = 0 then arr
  else if npIsClose (listMax arr) (listMin arr) then arr.map (fun _ => 0)
  else arr.map (fun x => (x - listMin arr) / (listMax arr - listMin arr))

/-- One row of `self.catalog` after construction: appid, name and the
derived `text` column (description + " " + genres). -/
structure CatalogRow where
  appid : Int
  name : String
  text : String
deriving DecidableEq

/-- One row of the `candidates` frame after `reset_index(drop=True)`:
the fresh positional label 0,1,2,... plus the catalog row.  pandas keeps
the label attached to the row through `sort_values`. -/
structure CandRow where
  idx : Nat
  row : CatalogRow
deriving DecidableEq

/-- A candidate row after `candidates["score"] = ...`. -/
structure ScoredRow where
  cand : CandRow
  score : ℚ
deriving DecidableEq

/-- One row of the returned frame `[["appid", "name", "score"]]`. -/
structure OutRow where
  appid : Int
  name : String
  score : ℚ
deriving DecidableEq

/-- The fields of `self` that `recommend` touches: the catalog, the
per-user library, the fitted vectorizer (`self.vectorizer.transform`,
external sklearn code, kept as a function), the row-aligned tfidf matrix
and its column count. -/
structure RecState where
  catalog : List CatalogRow
  library : List Int
  vectorizer : List String → List (List ℚ)
  tfidf_matrix : List (List ℚ)
  nfeatures : Nat

/-- Lines 44-46: `mask = ~catalog["appid"].isin(self.library)`,
`candidates = self.catalog[mask].reset_index(drop=True)` — the catalog
rows whose appid is not in the library, in catalog order, relabelled
0,1,2,... -/
def candidatesOf (s : RecState) : List CandRow :=
  ((s.catalog.filter (fun r => !(s.library.contains r.appid))).enum).map
    (fun p => ⟨p.1, p.2⟩)

/-- Stable ascending insertion by score: the incoming element (earlier in
the unsorted input) is placed before the first element of greater or
equal score, so equal-score elements keep their input order. -/
def sortedInsert (x : ScoredRow) : List ScoredRow → List ScoredRow
  | [] => [x]
  | y :: ys => if x.score ≤ y.score then x :: y :: ys else y :: sortedInsert x ys

/-- Stable ascending insertion sort by score — the result numpy's
argsort produces on fewer than 17 elements, where its quicksort falls
back to (stable) insertion sort. -/
def sortAsc : List ScoredRow → List ScoredRow
  | [] => []
  | x :: xs => sortedInsert x (sortAsc xs)

/-- Ascending insertion that walks past equal scores, so equal-score
elements come out in reversed input order: a valid but unstable
ascending sort kernel, of the kind numpy's quicksort is documented to be
allowed to produce (and does produce, with a different permutation, once
a partitioning pass runs, i.e. above 16 elements). -/
def sortedInsertA (x : ScoredRow) : List ScoredRow → List ScoredRow
  | [] => [x]
  | y :: ys => if x.score < y.score then x :: y :: ys else y :: sortedInsertA x ys

/-- The unstable counterpart of `sortAsc`: also sorts ascending by
score, but reverses the input order of tied elements. -/
def sortAscA : List ScoredRow → List ScoredRow
  | [] => []
  | x :: xs => sortedInsertA x (sortAscA xs)

/-- pandas `sort_values("score", ascending=False)` via its `nargsort`:
for a descending sort the rows and their labels are reversed, the
ascending argsort kernel runs, and the resulting order is reversed
again.  The kernel (numpy `kind="quicksort"`) only guarantees an
ascending ordering — pandas documents that only mergesort/stable are
stable — so it is a parameter here. -/
def sort_values_desc (kernel : List ScoredRow → List ScoredRow)
    (l : List ScoredRow) : List ScoredRow :=
  (kernel l.reverse).reverse

/-- Lines 44-101 of `recommend`: candidates, profile vectors, the three
raw signals (cosine similarities enter through the `cosine` parameter,
since their values are irrational square-root quotients computed by
sklearn), independent normalization, and the blended score column. -/
def scoredOf (s : RecState) (cosine : List ℚ → List (List ℚ) → List ℚ)
    (my_recent friends_recent : List (Int × ℚ)) (alpha beta gamma : ℚ) :
    List ScoredRow :=
  let candidates := candidatesOf s
  let cand_matrix := s.vectorizer (candidates.map (fun c => c.row.text))
  let catAppids := s.catalog.map (fun r => r.appid)
  let vec_me := profile_vec s.nfeatures catAppids s.tfidf_matrix my_recent
  let vec_fr := profile_vec s.nfeatures catAppids s.tfidf_matrix friends_recent
  let sims_me := match vec_me with
    | some v => cosine v cand_matrix
    | none => List.replicate candidates.length 0
  let sims_fr := match vec_fr with
    | some v => cosine v cand_matrix
    | none => List.replicate candidates.length 0
  let rawFriends := raw_fr friends_recent (candidates.map (fun c => c.row.appid))
  let user_signal := normalize_signal sims_me
  let friends_play_signal := normalize_signal rawFriends
  let friends_sim_signal := normalize_signal sims_fr
  let scores := addVec
    (addVec (scaleVec alpha user_signal) (scaleVec beta friends_play_signal))
    (scaleVec gamma friends_sim_signal)
  List.zipWith (fun c sc => ⟨c, sc⟩) candidates scores

/-- Lines 102-104 up to `head(k)`: the scored candidates sorted by score
descending, truncated to the first `k` rows. -/
def rankedRows (s : RecState) (cosine : List ℚ → List (List ℚ) → List ℚ)
    (kernel : List ScoredRow → List ScoredRow)
    (my_recent friends_recent : List (Int × ℚ)) (k : Nat)
    (alpha beta gamma : ℚ) : List ScoredRow :=
  (sort_values_desc kernel
    (scoredOf s cosine my_recent friends_recent alpha beta gamma)).take k

/-- The return value of `recommend`: the ranked rows projected onto
`["appid", "name", "score"]`. -/
def recommend (s : RecState) (cosine : List ℚ → List (List ℚ) → List ℚ)
    (kernel : List ScoredRow → List ScoredRow)
    (my_recent friends_recent : List (Int × ℚ)) (k : Nat)
    (alpha beta gamma : ℚ) : List OutRow :=
  (rankedRows s cosine kernel my_recent friends_recent k alpha beta gamma).map
    (fun r => ⟨r.cand.row.appid, r.cand.row.name, r.score⟩)

/-- The full method call including its effect on `self`.  `recommend`
reads `self.catalog`, `self.library`, `self.vectorizer` and
`self.tfidf_matrix` and assigns only to the local frame `candidates`
(`self.catalog[mask].reset_index(drop=True)` allocates a new frame, so
`candidates["score"] = ...` mutates no field of `self`); the state after
the call is spelled out field by field as the method leaves them. -/
def recommendS (s : RecState) (cosine : List ℚ → List (List ℚ) → List ℚ)
    (kernel : List ScoredRow → List ScoredRow)
    (my_recent friends_recent : List (Int × ℚ)) (k : Nat)
    (alpha beta gamma : ℚ) : List OutRow × RecState :=
  (recommend s cosine kernel my_recent friends_recent k alpha beta gamma,
   { catalog := s.catalog
     library := s.library
     vectorizer := s.vectorizer
     tfidf_matrix := s.tfidf_matrix
     nfeatures := s.nfeatures })

example : normalize_signal [1, 2, 3] = [0, 1/2, 1] := by with_unfolding_all decide
example : normalize_signal [5, 5, 5] = [0, 0, 0] := by with_unfolding_all decide
example : normalize_signal [0, 1/1000000000] = [0, 0] := by with_unfolding_all decide
example : raw_fr [(1, 2), (1, 3)] [1, 7] = [3, 0] := by with_unfolding_all decide
example : profile_vec 2 [1, 2] [[1, 0], [0, 1]] [(1, 3), (2, 5), (9, 7)]
    = some [3, 5] := by with_unfolding_all decide
example : profile_vec 1 [1] [[1]] [(1, -2)] = some [-2] := by with_unfolding_all decide
example : spec_profile 2 [1, 2] [[1, 0], [0, 1]] [(1, 3), (2, 5), (9, 7)]
    = some [3, 5] := by with_unfolding_all decide

def testState : RecState :=
  { catalog := [⟨1, "A", "space shooter action"⟩, ⟨2, "B", "space shooter action"⟩,
                ⟨3, "C", "farming sim simulation"⟩]
    library := []
    vectorizer := fun ts => ts.map (fun _ => [0])
    tfidf_matrix := [[1], [1], [1]]
    nfeatures := 1 }

def cos0 : List ℚ → List (List ℚ) → List ℚ := fun _ m => m.map (fun _ => 0)

example : (recommend testState cos0 sortAsc [] [] 3 1 1 1).map (fun r => r.appid)
    = [1, 2, 3] := by with_unfolding_all decide
example : (recommend testState cos0 sortAscA [] [] 3 1 1 1).map (fun r => r.appid)
    = [3, 2, 1] := by with_unfolding_all decide
example : (recommendS testState cos0 sortAsc [] [] 3 1 1 1).2 = testState := rfl

/-- Word characters of sklearn's default token pattern `\b\w\w+\b`
(ASCII fragment of the regex class `\w`). -/
def isWordChar (c : Char) : Bool := c.isAlphanum || c == '_'

/-- Split a lowercased character stream into maximal word-character runs
and keep those of length at least 2, as the default
`token_pattern=r"(?u)\b\w\w+\b"` does; `cur` is the current run,
reversed. -/
def splitTokens (cur : List Char) : List Char → List String
  | [] => if cur.length ≥ 2 then [String.mk cur.reverse] else []
  | c :: cs =>
    if isWordChar c then splitTokens (c :: cur) cs
    else (if cur.length ≥ 2 then [String.mk cur.reverse] else []) ++ splitTokens [] cs

/-- sklearn `CountVectorizer` analyzer under the constructor arguments
of lines 29-32: lowercase the document, extract tokens. -/
def tokenize (s : String) : List String := splitTokens [] s.toLower.data

/-- sklearn's frozen English stop word list
(`sklearn.feature_extraction.text.ENGLISH_STOP_WORDS`), selected by
`stop_words="english"`. -/
def ENGLISH_STOP_WORDS : List String :=
  ["a", "about", "above", "across", "after", "afterwards", "again", "against",
   "all", "almost", "alone", "along", "already", "also", "although", "always",
   "am", "among", "amongst", "amoungst", "amount", "an", "and", "another",
   "any", "anyhow", "anyone", "anything", "anyway", "anywhere", "are",
   "around", "as", "at", "back", "be", "became", "because", "become",
   "becomes", "becoming", "been", "before", "beforehand", "behind", "being",
   "below", "beside", "besides", "between", "beyond", "bill", "both",
   "bottom", "but", "by", "call", "can", "cannot", "cant", "co", "con",
   "could", "couldnt", "cry", "de", "describe", "detail", "do", "done",
   "down", "due", "during", "each", "eg", "eight", "either", "eleven",
   "else", "elsewhere", "empty", "enough", "etc", "even", "ever", "every",
   "everyone", "everything", "everywhere", "except", "few", "fifteen",
   "fifty", "fill", "find", "fire", "first", "five", "for", "former",
   "formerly", "forty", "found", "four", "from", "front", "full", "further",
   "get", "give", "go", "had", "has", "hasnt", "have", "he", "hence", "her",
   "here", "hereafter", "hereby", "herein", "hereupon", "hers", "herself",
   "him", "himself", "his", "how", "however", "hundred", "i", "ie", "if",
   "in", "inc", "indeed", "interest", "into", "is", "it", "its", "itself",
   "keep", "last", "latter", "latterly", "least", "less", "ltd", "made",
   "many", "may", "me", "meanwhile", "might", "mill", "mine", "more",
   "moreover", "most", "mostly", "move", "much", "must", "my", "myself",
   "name", "namely", "neither", "never", "nevertheless", "next", "nine",
   "no", "nobody", "none", "noone", "nor", "not", "nothing", "now",
   "nowhere", "of", "off", "often", "on", "once", "one", "only", "onto",
   "or", "other", "others", "otherwise", "our", "ours", "ourselves", "out",
   "over", "own", "part", "per", "perhaps", "please", "put", "rather", "re",
   "same", "see", "seem", "seemed", "seeming", "seems", "serious", "several",
   "she", "should", "show", "side", "since", "sincere", "six", "sixty",
   "so", "some", "somehow", "someone", "something", "sometime", "sometimes",
   "somewhere", "still", "such", "system", "take", "ten", "than", "that",
   "the", "their", "them", "themselves", "then", "thence", "there",
   "thereafter", "thereby", "therefore", "therein", "thereupon", "these",
   "they", "thick", "thin", "third", "this", "those", "though", "three",
   "through", "throughout", "thru", "thus", "to", "together", "too", "top",
   "toward", "towards", "twelve", "twenty", "two", "un", "under", "until",
   "up", "upon", "us", "very", "via", "was", "we", "well", "were", "what",
   "whatever", "when", "whence", "whenever", "where", "whereafter",
   "whereas", "whereby", "wherein", "whereupon", "wherever", "whether",
   "which", "while", "whither", "who", "whoever", "whole", "whom", "whose",
   "why", "will", "with", "within", "without", "would", "yet", "you",
   "your", "yours", "yourself", "yourselves"]

/-- The vocabulary the vectorizer fits: every token of every document
that is not a stop word, deduplicated.  The `max_features=50000` cap
keeps the most frequent terms and cannot turn a nonempty vocabulary
empty, so it is irrelevant to construction errors. -/
def vocabularyOf (texts : List String) : List String :=
  ((texts.map tokenize).flatten.filter
    (fun t => !(ENGLISH_STOP_WORDS.contains t))).dedup

/-- A raised Python exception: class name and message. -/
structure PyError where
  etype : String
  msg : String
deriving DecidableEq

/-- The catalog table as loaded by `pd.read_sql_query`: a column may be
absent altogether when the database is malformed (outer `Option`); a
NULL inside description/genres is an inner `none`, handled by `fillna`. -/
structure RawCatalog where
  appid : Option (List Int)
  name : Option (List String)
  description : Option (List (Option String))
  genres : Option (List (Option String))

/-- The fitted index a successful `__init__` produces. -/
structure FittedIndex where
  texts : List String
  vocab : List String
deriving DecidableEq

/-- `AdvancedRecommender.__init__` (lines 9-33) after the SQL load.
Building the text column `description.fillna("") + " " + genres.fillna("")`
raises `KeyError` when either column is missing (description is read
first); fitting the vectorizer raises sklearn's `ValueError` when the
corpus yields an empty vocabulary, in particular on an empty catalog.
No other validation happens — the appid column is never read here. -/
def initRecommender (raw : RawCatalog) : Except PyError FittedIndex :=
  match raw.description with
  | none => .error ⟨"KeyError", "description"⟩
  | some dcol =>
    match raw.genres with
    | none => .error ⟨"KeyError", "genres"⟩
    | some gcol =>
      let texts := List.zipWith
        (fun d g => (Option.getD d "") ++ " " ++ (Option.getD g "")) dcol gcol
      let vocab := vocabularyOf texts
      if vocab = [] then
        .error ⟨"ValueError",
          "empty vocabulary; perhaps the documents only contain stop words"⟩
      else .ok ⟨texts, vocab⟩

deriving instance DecidableEq for Except

/-- The class of the exception a construction attempt raises, `none`
when construction succeeds. -/
def errType : Except PyError FittedIndex → Option String
  | .error e => some e.etype
  | .ok _ => none

example : tokenize "Space shooter!" = ["space", "shooter"] := by
  with_unfolding_all decide
example : initRecommender ⟨some [], some [], some [], some []⟩
    = .error ⟨"ValueError",
        "empty vocabulary; perhaps the documents only contain stop words"⟩ := by
  with_unfolding_all decide
example : initRecommender
    ⟨none, some ["A"], some [some "space shooter"], some [some "Action"]⟩
    = .ok ⟨["space shooter Action"], ["space", "shooter", "action"]⟩ := by
  with_unfolding_all decide

/-! ### Arrays: maxima and minima -/

theorem le_foldl_max (l : List ℚ) : ∀ a : ℚ, a ≤ l.foldl max a := by
  induction l with
  | nil => intro a; exact le_refl a
  | cons b l ih => intro a; exact le_trans (le_max_left a b) (ih (max a b))

theorem mem_le_foldl_max (l : List ℚ) : ∀ a x, x ∈ l → x ≤ l.foldl max a := by
  induction l with
  | nil => intro a x hx; cases hx
  | cons b l ih =>
    intro a x hx
    rcases List.mem_cons.mp hx with rfl | h
    · exact le_trans (le_max_right a x) (le_foldl_max l (max a x))
    · exact ih (max a b) x h

theorem mem_le_listMax (arr : List ℚ) (x : ℚ) (hx : x ∈ arr) :
    x ≤ listMax arr := by
  cases arr with
  | nil => cases hx
  | cons a l =>
    rcases List.mem_cons.mp hx with rfl | h
    · exact le_foldl_max l x
    · exact mem_le_foldl_max l a x h

theorem foldl_min_le (l : List ℚ) : ∀ a : ℚ, l.foldl min a ≤ a := by
  induction l with
  | nil => intro a; exact le_refl a
  | cons b l ih => intro a; exact le_trans (ih (min a b)) (min_le_left a b)

theorem foldl_min_le_mem (l : List ℚ) : ∀ a x, x ∈ l → l.foldl min a ≤ x := by
  induction l with
  | nil => intro a x hx; cases hx
  | cons b l ih =>
    intro a x hx
    rcases List.mem_cons.mp hx with rfl | h
    · exact le_trans (foldl_min_le l (min a x)) (min_le_right a x)
    · exact ih (min a b) x h

theorem listMin_le_mem (arr : List ℚ) (x : ℚ) (hx : x ∈ arr) :
    listMin arr ≤ x := by
  cases arr with
  | nil => cases hx
  | cons a l =>
    rcases List.mem_cons.mp hx with rfl | h
    · exact foldl_min_le l x
    · exact foldl_min_le_mem l a x h

theorem listMin_le_listMax {arr : List ℚ} (h : arr ≠ []) :
    listMin arr ≤ listMax arr := by
  cases arr with
  | nil => exact absurd rfl h
  | cons a l =>
    exact le_trans (listMin_le_mem (a :: l) a (List.Mem.head l))
      (mem_le_listMax (a :: l) a (List.Mem.head l))

theorem foldl_max_map (f : ℚ → ℚ) (hf : ∀ a b, f (max a b) = max (f a) (f b))
    (l : List ℚ) : ∀ a, (l.map f).foldl max (f a) = f (l.foldl max a) := by
  induction l with
  | nil => intro a; rfl
  | cons b l ih =>
    intro a
    show (l.map f).foldl max (max (f a) (f b)) = f ((b :: l).foldl max a)
    rw [← hf]
    exact ih (max a b)

theorem listMax_map (f : ℚ → ℚ) (hf : ∀ a b, f (max a b) = max (f a) (f b))
    (arr : List ℚ) (h : arr ≠ []) : listMax (arr.map f) = f (listMax arr) := by
  cases arr with
  | nil => exact absurd rfl h
  | cons a l => exact foldl_max_map f hf l a

theorem foldl_min_map (f : ℚ → ℚ) (hf : ∀ a b, f (min a b) = min (f a) (f b))
    (l : List ℚ) : ∀ a, (l.map f).foldl min (f a) = f (l.foldl min a) := by
  induction l with
  | nil => intro a; rfl
  | cons b l ih =>
    intro a
    show (l.map f).foldl min (min (f a) (f b)) = f ((b :: l).foldl min a)
    rw [← hf]
    exact ih (min a b)

theorem listMin_map (f : ℚ → ℚ) (hf : ∀ a b, f (min a b) = min (f a) (f b))
    (arr : List ℚ) (h : arr ≠ []) : listMin (arr.map f) = f (listMin arr) := by
  cases arr with
  | nil => exact absurd rfl h
  | cons a l => exact foldl_min_map f hf l a

theorem npIsClose_refl (a : ℚ) : npIsClose a a = true := by
  simp only [npIsClose, decide_eq_true_eq, sub_self, abs_zero]
  positivity

theorem lt_of_not_npIsClose {a b : ℚ} (hab : b ≤ a)
    (h : npIsClose a b = false) : b < a := by
  simp only [npIsClose, decide_eq_false_iff_not, not_le] at h
  rcases eq_or_lt_of_le hab with rfl | hlt
  · rw [sub_self, abs_zero] at h
    linarith [abs_nonneg b]
  · exact hlt

theorem normalize_signal_length (arr : List ℚ) :
    (normalize_signal arr).length = arr.length := by
  unfold normalize_signal
  split_ifs <;> simp

theorem npIsClose_one_zero : npIsClose 1 0 = false := by
  simp only [npIsClose, decide_eq_false_iff_not, not_le, abs_zero, sub_zero, abs_one]
  norm_num

theorem listMax_zeros {arr : List ℚ} (h : arr ≠ []) :
    listMax (arr.map (fun _ => (0 : ℚ))) = 0 := by
  have := listMax_map (fun _ => (0 : ℚ)) (by intro a b; simp) arr h
  simpa using this

theorem listMin_zeros {arr : List ℚ} (h : arr ≠ []) :
    listMin (arr.map (fun _ => (0 : ℚ))) = 0 := by
  have := listMin_map (fun _ => (0 : ℚ)) (by intro a b; simp) arr h
  simpa using this

/-- C10: `_normalize_signal` is idempotent over exact arithmetic: an
empty array stays empty, an (is)close-range array maps to all zeros whose
range is again close (0 = 0), and a min-max scaled array has exact
minimum 0 and maximum 1, so scaling it again is the identity map. -/
theorem normalize_signal_idempotent (arr : List ℚ) :
    normalize_signal (normalize_signal arr) = normalize_signal arr := by
  by_cases h0 : arr.length = 0
  · have harr : arr = [] := List.length_eq_zero.mp h0
    subst harr
    simp [normalize_signal]
  · have hne : arr ≠ [] := fun h => h0 (by simp [h])
    by_cases hc : npIsClose (listMax arr) (listMin arr) = true
    · have hout : normalize_signal arr = arr.map (fun _ => 0) := by
        unfold normalize_signal
        rw [if_neg h0, if_pos hc]
      rw [hout]
      unfold normalize_signal
      rw [if_neg (by simpa using h0), if_pos (by rw [listMax_zeros hne, listMin_zeros hne]; exact npIsClose_refl 0)]
      simp
    · have hcf : npIsClose (listMax arr) (listMin arr) = false :=
        Bool.not_eq_true _ ▸ Bool.of_not_eq_true hc
      have hmM : listMin arr < listMax arr :=
        lt_of_not_npIsClose (listMin_le_listMax hne) hcf
      have hd : (0 : ℚ) < listMax arr - listMin arr := sub_pos.mpr hmM
      have hout : normalize_signal arr
          = arr.map (fun x => (x - listMin arr) / (listMax arr - listMin arr)) := by
        unfold normalize_signal
        rw [if_neg h0, if_neg hc]
      have hfmax : ∀ a b : ℚ,
          (max a b - listMin arr) / (listMax arr - listMin arr)
            = max ((a - listMin arr) / (listMax arr - listMin arr))
                  ((b - listMin arr) / (listMax arr - listMin arr)) := by
        intro a b
        rw [← max_sub_sub_right a b (listMin arr), max_div_div_right (le_of_lt hd)]
      have hfmin : ∀ a b : ℚ,
          (min a b - listMin arr) / (listMax arr - listMin arr)
            = min ((a - listMin arr) / (listMax arr - listMin arr))
                  ((b - listMin arr) / (listMax arr - listMin arr)) := by
        intro a b
        rw [← min_sub_sub_right a b (listMin arr), min_div_div_right (le_of_lt hd)]
      have hM2 : listMax (normalize_signal arr) = 1 := by
        rw [hout, listMax_map _ (fun a b => hfmax a b) arr hne]
        exact div_self (ne_of_gt hd)
      have hm2 : listMin (normalize_signal arr) = 0 := by
        rw [hout, listMin_map _ (fun a b => hfmin a b) arr hne]
        simp
      have hlen : ¬ ((normalize_signal arr).length = 0) := by
        rw [normalize_signal_length]; exact h0
      conv_lhs => rw [normalize_signal]
      rw [if_neg hlen, hM2, hm2, npIsClose_one_zero]
      rw [if_neg (by simp)]
      rw [hout, List.map_map]
      have : ((fun x : ℚ => (x - 0) / (1 - 0)) ∘
          (fun x : ℚ => (x - listMin arr) / (listMax arr - listMin arr)))
          = fun x : ℚ => (x - listMin arr) / (listMax arr - listMin arr) := by
        funext y
        simp
      rw [this]

/-- C4 (amended): `_normalize_signal` returns an empty array unchanged;
it returns all zeros not only when max equals min but whenever
`np.isclose(max, min)` holds under numpy's default tolerances; otherwise
it min-max scales elementwise; and every output value lies in [0, 1]. -/
theorem normalize_signal_characterization (arr : List ℚ) :
    (arr = [] → normalize_signal arr = []) ∧
    (npIsClose (listMax arr) (listMin arr) = true →
      normalize_signal arr = arr.map (fun _ => 0)) ∧
    (listMax arr = listMin arr → normalize_signal arr = arr.map (fun _ => 0)) ∧
    (npIsClose (listMax arr) (listMin arr) = false →
      normalize_signal arr
        = arr.map (fun x => (x - listMin arr) / (listMax arr - listMin arr))) ∧
    (∀ y ∈ normalize_signal arr, 0 ≤ y ∧ y ≤ 1) := by
  have h2 : npIsClose (listMax arr) (listMin arr) = true →
      normalize_signal arr = arr.map (fun _ => 0) := by
    intro hc
    by_cases h0 : arr.length = 0
    · have harr : arr = [] := List.length_eq_zero.mp h0
      subst harr
      simp [normalize_signal]
    · unfold normalize_signal
      rw [if_neg h0, if_pos hc]
  have h4 : npIsClose (listMax arr) (listMin arr) = false →
      normalize_signal arr
        = arr.map (fun x => (x - listMin arr) / (listMax arr - listMin arr)) := by
    intro hcf
    by_cases h0 : arr.length = 0
    · have harr : arr = [] := List.length_eq_zero.mp h0
      subst harr
      simp [normalize_signal]
    · unfold normalize_signal
      rw [if_neg h0, if_neg (by simp [hcf])]
  refine ⟨?_, h2, ?_, h4, ?_⟩
  · intro h
    subst h
    simp [normalize_signal]
  · intro he
    exact h2 (by rw [he]; exact npIsClose_refl _)
  · intro y hy
    by_cases h0 : arr.length = 0
    · have harr : arr = [] := List.length_eq_zero.mp h0
      subst harr
      simp [normalize_signal] at hy
    · have hne : arr ≠ [] := fun h => h0 (by simp [h])
      by_cases hc : npIsClose (listMax arr) (listMin arr) = true
      · rw [h2 hc] at hy
        obtain ⟨x, _, rfl⟩ := List.mem_map.mp hy
        exact ⟨le_refl 0, by norm_num⟩
      · have hcf : npIsClose (listMax arr) (listMin arr) = false :=
          Bool.not_eq_true _ ▸ Bool.of_not_eq_true hc
        have hmM : listMin arr < listMax arr :=
          lt_of_not_npIsClose (listMin_le_listMax hne) hcf
        have hd : (0 : ℚ) < listMax arr - listMin arr := sub_pos.mpr hmM
        rw [h4 hcf] at hy
        obtain ⟨x, hx, rfl⟩ := List.mem_map.mp hy
        constructor
        · exact div_nonneg (sub_nonneg.mpr (listMin_le_mem arr x hx)) (le_of_lt hd)
        · rw [div_le_one hd]
          have := mem_le_listMax arr x hx
          linarith

/-- C4 counterexample: on the array `[0, 1e-9]` the maximum differs from
the minimum, yet the code returns all zeros (the `np.isclose` branch
fires, since `1e-9 <= atol = 1e-8`) instead of the claimed elementwise
min-max scaling `[0, 1]`. -/
theorem normalize_signal_isclose_counterexample :
    listMax [0, 1/1000000000] ≠ listMin [0, 1/1000000000] ∧
    normalize_signal [0, 1/1000000000] = [0, 0] ∧
    ¬ (normalize_signal [0, 1/1000000000]
        = [0, 1/1000000000].map
            (fun x => (x - listMin [0, 1/1000000000])
              / (listMax [0, 1/1000000000] - listMin [0, 1/1000000000]))) := by
  refine ⟨by with_unfolding_all decide, by with_unfolding_all decide,
    by with_unfolding_all decide⟩

/-- Witness for C4: on `[5, 5, 5]` the all-equal branch gives zeros; on
`[1, 2, 4]` the middle output value 1/3 lies in [0, 1]. -/
theorem normalize_signal_characterization_w :
    normalize_signal [5, 5, 5] = [5, 5, 5].map (fun _ => 0) ∧
    (0 ≤ (normalize_signal [1, 2, 4]).getD 1 0 ∧
      (normalize_signal [1, 2, 4]).getD 1 0 ≤ 1) := by
  constructor
  · exact (normalize_signal_characterization [5, 5, 5]).2.2.1
      (by with_unfolding_all decide)
  · exact (normalize_signal_characterization [1, 2, 4]).2.2.2.2
      ((normalize_signal [1, 2, 4]).getD 1 0) (by with_unfolding_all decide)

/-! ### The friends playtime dict -/

theorem dictGet_map_update_ne (d : List (Int × ℚ)) (key k : Int) (v : ℚ)
    (hk : k ≠ key) :
    dictGet (d.map (fun e => if e.1 == key then (e.1, v) else e)) k
      = dictGet d k := by
  induction d with
  | nil => rfl
  | cons e d ih =>
    by_cases he : e.1 = key
    · unfold dictGet
      rw [List.map_cons, List.find?_cons, List.find?_cons]
      have h1 : ((if e.1 == key then (e.1, v) else e).1 == k) = false := by
        simp [he, Ne.symm hk]
      have h2 : (e.1 == k) = false := by
        simp [he, Ne.symm hk]
      rw [h1, h2]
      exact ih
    · unfold dictGet
      rw [List.map_cons, List.find?_cons, List.find?_cons]
      have h1 : (if e.1 == key then (e.1, v) else e) = e := by simp [he]
      rw [h1]
      by_cases hek : e.1 = k
      · simp [hek]
      · have h2 : (e.1 == k) = false := by simp [hek]
        rw [h2]
        exact ih

theorem dictGet_map_update_eq (d : List (Int × ℚ)) (key : Int) (v : ℚ)
    (hmem : d.any (fun e => e.1 == key) = true) :
    dictGet (d.map (fun e => if e.1 == key then (e.1, v) else e)) key
      = some v := by
  induction d with
  | nil => simp at hmem
  | cons e d ih =>
    by_cases he : e.1 = key
    · unfold dictGet
      rw [List.map_cons, List.find?_cons]
      have h1 : ((if e.1 == key then (e.1, v) else e).1 == key) = true := by
        simp [he]
      rw [h1]
      simp [he]
    · have hmem' : d.any (fun e => e.1 == key) = true := by
        rcases List.any_eq_true.mp hmem with ⟨x, hx, hpx⟩
        rcases List.mem_cons.mp hx with rfl | hxd
        · exact absurd (by simpa using hpx) he
        · exact List.any_eq_true.mpr ⟨x, hxd, hpx⟩
      unfold dictGet
      rw [List.map_cons, List.find?_cons]
      have h1 : ((if e.1 == key then (e.1, v) else e).1 == key) = false := by
        simp [he]
      rw [h1]
      exact ih hmem'

theorem dictGet_dictInsert (d : List (Int × ℚ)) (key k : Int) (v : ℚ) :
    dictGet (dictInsert d key v) k
      = if k = key then some v else dictGet d k := by
  unfold dictInsert
  by_cases hmem : d.any (fun e => e.1 == key) = true
  · rw [if_pos hmem]
    by_cases hk : k = key
    · subst hk
      rw [if_pos rfl]
      exact dictGet_map_update_eq d k v hmem
    · rw [if_neg hk]
      exact dictGet_map_update_ne d key k v hk
  · rw [if_neg hmem]
    unfold dictGet
    rw [List.find?_append]
    by_cases hk : k = key
    · subst hk
      have hnone : d.find? (fun e => e.1 == k) = none := by
        rw [List.find?_eq_none]
        intro x hx hpx
        exact (List.any_eq_false.mp (Bool.of_not_eq_true hmem) x hx) hpx
      rw [hnone, if_pos rfl]
      simp
    · have h1 : (((key, v)).1 == k) = false := by
        simp only [beq_eq_false_iff_ne, ne_eq]
        exact fun h => hk h.symm
      rw [if_neg hk]
      cases hfd : d.find? (fun e => e.1 == k) with
      | none => simp [List.find?_cons, h1]
      | some x => simp

theorem dictGet_toDict (friends : List (Int × ℚ)) (k : Int) :
    dictGet (toDict friends) k
      = (friends.reverse.find? (fun e => e.1 == k)).map (fun e => e.2) := by
  induction friends using List.reverseRecOn with
  | nil => rfl
  | append_singleton l e ih =>
    have hfold : toDict (l ++ [e]) = dictInsert (toDict l) e.1 e.2 := by
      unfold toDict
      rw [List.foldl_append]
      rfl
    rw [hfold, dictGet_dictInsert, List.reverse_append]
    by_cases hk : k = e.1
    · subst hk
      simp [List.find?_cons]
    · have h1 : (e.1 == k) = false := by
        simp only [beq_eq_false_iff_ne, ne_eq]
        exact fun h => hk h.symm
      simp [List.find?_cons, h1, hk, ih]

theorem revFind_eq_sum_of_nodup (friends : List (Int × ℚ))
    (hnd : (friends.map Prod.fst).Nodup) (aid : Int) :
    ((friends.reverse.find? (fun e => e.1 == aid)).map (fun e => e.2)).getD 0
      = ((friends.filter (fun e => e.1 == aid)).map (fun e => e.2)).sum := by
  induction friends with
  | nil => rfl
  | cons e l ih =>
    have hnd' : (l.map Prod.fst).Nodup := (List.nodup_cons.mp (by simpa using hnd)).2
    have hni : e.1 ∉ l.map Prod.fst := (List.nodup_cons.mp (by simpa using hnd)).1
    rw [List.reverse_cons, List.find?_append]
    by_cases ha : e.1 = aid
    · subst ha
      have hfl : l.reverse.find? (fun x => x.1 == e.1) = none := by
        rw [List.find?_eq_none]
        intro x hx hpx
        exact hni (by
          have hxl : x ∈ l := List.mem_reverse.mp hx
          have : x.1 = e.1 := by simpa using hpx
          exact this ▸ List.mem_map_of_mem Prod.fst hxl)
      have hfilter : l.filter (fun x => x.1 == e.1) = [] := by
        rw [List.filter_eq_nil_iff]
        intro x hx hpx
        exact hni (by
          have : x.1 = e.1 := by simpa using hpx
          exact this ▸ List.mem_map_of_mem Prod.fst hx)
      rw [hfl, List.filter_cons_of_pos (by simp)]
      simp [hfilter]
    · have h1 : (e.1 == aid) = false := by simp [ha]
      rw [List.filter_cons_of_neg (by simp [ha])]
      have h2 : List.find? (fun x => x.1 == aid) [e] = none := by
        simp [List.find?_cons, h1]
      rw [h2, Option.or_none]
      exact ih hnd'

/-- C1 counterexample: with two friends rows for the same appid 1 with
weights 2 and 3, the raw friends signal for candidate appid 1 is 3 (the
last row wins in the dict built by `set_index(...).to_dict()`), not the
claimed sum 2 + 3. -/
theorem friends_raw_sum_counterexample :
    raw_fr [(1, 2), (1, 3)] [1] = [3] ∧
    raw_fr [(1, 2), (1, 3)] [1] ≠ [2 + 3] := by
  refine ⟨by with_unfolding_all decide, by with_unfolding_all decide⟩

/-- C1 (amended): `raw_fr[i]` equals the weight of the LAST friends
activity row whose appid equals candidate i's appid (0 when there is
none), because `to_dict()` lets later rows overwrite earlier ones; when
no appid is duplicated in the friends list this coincides with the
claimed sum of all matching weights. -/
theorem friends_raw_characterization (friends : List (Int × ℚ))
    (candAppids : List Int) :
    (raw_fr friends candAppids
      = candAppids.map (fun aid =>
          ((friends.reverse.find? (fun e => e.1 == aid)).map (fun e => e.2)).getD 0)) ∧
    ((friends.map Prod.fst).Nodup →
      raw_fr friends candAppids
        = candAppids.map (fun aid =>
            ((friends.filter (fun e => e.1 == aid)).map (fun e => e.2)).sum)) := by
  have h1 : raw_fr friends candAppids
      = candAppids.map (fun aid =>
          ((friends.reverse.find? (fun e => e.1 == aid)).map (fun e => e.2)).getD 0) := by
    unfold raw_fr
    exact List.map_congr_left (fun aid _ => by rw [dictGet_toDict])
  refine ⟨h1, fun hnd => h1.trans ?_⟩
  exact List.map_congr_left (fun aid _ => revFind_eq_sum_of_nodup friends hnd aid)

/-- Witness for C1: a duplicate-free friends list `[(1, 2), (2, 5)]`
against candidates `[1, 2, 3]` realises the sum form `[2, 5, 0]`. -/
theorem friends_raw_characterization_w :
    (([((1 : Int), (2 : ℚ)), (2, 5)].map Prod.fst).Nodup) ∧
    raw_fr [(1, 2), (2, 5)] [1, 2, 3]
      = [1, 2, 3].map (fun aid =>
          (([((1 : Int), (2 : ℚ)), (2, 5)].filter (fun e => e.1 == aid)).map
            (fun e => e.2)).sum) :=
  ⟨by with_unfolding_all decide,
   (friends_raw_characterization [(1, 2), (2, 5)] [1, 2, 3]).2
     (by with_unfolding_all decide)⟩

/-! ### Vector sum algebra -/

theorem addVec_comm (a b : List ℚ) : addVec a b = addVec b a := by
  unfold addVec
  induction a generalizing b with
  | nil => cases b <;> rfl
  | cons x a ih =>
    cases b with
    | nil => rfl
    | cons y b => simp [List.zipWith, add_comm, ih b]

theorem addVec_assoc (a b c : List ℚ) :
    addVec (addVec a b) c = addVec a (addVec b c) := by
  unfold addVec
  induction a generalizing b c with
  | nil => rfl
  | cons x a ih =>
    cases b with
    | nil => rfl
    | cons y b =>
      cases c with
      | nil => rfl
      | cons z c => simp [List.zipWith, add_assoc, ih b c]

theorem addVec_right_comm (z x y : List ℚ) :
    addVec (addVec z x) y = addVec (addVec z y) x := by
  rw [addVec_assoc, addVec_assoc, addVec_comm x y]

theorem foldr_addVec_shift (l : List (List ℚ)) :
    ∀ z v, l.foldr addVec (addVec z v) = addVec v (l.foldr addVec z) := by
  induction l with
  | nil => intro z v; exact addVec_comm z v
  | cons w l ih =>
    intro z v
    show addVec w (l.foldr addVec (addVec z v)) = _
    rw [ih z v, ← addVec_assoc, addVec_comm w v, addVec_assoc, List.foldr_cons]

theorem foldl_addVec_eq_foldr (l : List (List ℚ)) :
    ∀ z, l.foldl addVec z = l.foldr addVec z := by
  induction l with
  | nil => intro z; rfl
  | cons v l ih =>
    intro z
    show l.foldl addVec (addVec z v) = addVec v (l.foldr addVec z)
    rw [ih (addVec z v), foldr_addVec_shift]

theorem mem_of_findIdxQ_some {catAppids : List Int} {x : Int} {i : Nat}
    (h : catAppids.findIdx? (fun a => a == x) = some i) : x ∈ catAppids := by
  have hs : (catAppids.findIdx? (fun a => a == x)).isSome = true := by
    rw [h]; rfl
  rw [List.findIdx?_isSome] at hs
  rcases List.any_eq_true.mp hs with ⟨a, ha, hax⟩
  exact (by simpa using hax : a = x) ▸ ha

theorem not_mem_of_findIdxQ_none {catAppids : List Int} {x : Int}
    (h : catAppids.findIdx? (fun a => a == x) = none) : x ∉ catAppids := by
  intro hx
  have := List.findIdx?_eq_none_iff.mp h x hx
  simp at this

theorem resolved_map_eq (catAppids : List Int) (tfidf : List (List ℚ))
    (recent : List (Int × ℚ)) :
    ((recent.filterMap (fun e => (catAppids.findIdx? (fun a => a == e.1)).map
        (fun i => (i, e.2)))).map (fun p => scaleVec p.2 (tfidf.getD p.1 [])))
      = ((recent.filter (fun e => decide (e.1 ∈ catAppids))).map
          (fun e => scaleVec e.2
            (tfidf.getD ((catAppids.findIdx? (fun a => a == e.1)).getD 0) []))) := by
  induction recent with
  | nil => rfl
  | cons e r ih =>
    cases hfi : catAppids.findIdx? (fun a => a == e.1) with
    | some i =>
      have hmem : e.1 ∈ catAppids := mem_of_findIdxQ_some hfi
      simp only [List.filterMap_cons, hfi, Option.map_some', List.map_cons,
        List.filter_cons, hmem, decide_True, if_true, Option.getD_some]
      exact congrArg (scaleVec e.2 (tfidf.getD i []) :: ·) ih
    | none =>
      have hnm : e.1 ∉ catAppids := not_mem_of_findIdxQ_none hfi
      simp only [List.filterMap_cons, hfi, Option.map_none', List.filter_cons, hnm,
        decide_False, Bool.false_eq_true, if_false]
      exact ih

/-- C3 counterexample: the activity entry `(1, -2)` with negative weight
is NOT treated as weight 0: `profile_vec` multiplies the item vector
`[1]` by -2 and returns a profile with a negative component, while the
same entry with weight 0 yields the zero profile; no error is raised in
either case (the function is total). -/
theorem profile_vec_negative_weight_counterexample :
    profile_vec 1 [1] [[1]] [(1, -2)] = some [-2] ∧
    profile_vec 1 [1] [[1]] [(1, 0)] = some [0] ∧
    profile_vec 1 [1] [[1]] [(1, -2)] ≠ some [0] ∧
    (-2 : ℚ) < 0 := by
  refine ⟨by with_unfolding_all decide, by with_unfolding_all decide,
    by with_unfolding_all decide, by norm_num⟩

/-- C3 (amended): `profile_vec` never raises an error on any weight —
it is the total function computing the weighted sum of the item vectors
of the catalog-known entries with every weight used exactly as supplied,
negative weights included; this is the refinement equality against the
spec-side weighted sum `spec_profile`. -/
theorem profile_vec_weighted_sum_as_given (ncols : Nat) (catAppids : List Int)
    (tfidf : List (List ℚ)) (recent : List (Int × ℚ)) :
    profile_vec ncols catAppids tfidf recent
      = spec_profile ncols catAppids tfidf recent := by
  have hmap := resolved_map_eq catAppids tfidf recent
  have hlen : (recent.filterMap (fun e => (catAppids.findIdx? (fun a => a == e.1)).map
      (fun i => (i, e.2)))).length
      = (recent.filter (fun e => decide (e.1 ∈ catAppids))).length := by
    have h := congrArg List.length hmap
    simpa using h
  unfold profile_vec spec_profile
  by_cases hK : recent.filter (fun e => decide (e.1 ∈ catAppids)) = []
  · have hR : recent.filterMap (fun e => (catAppids.findIdx? (fun a => a == e.1)).map
        (fun i => (i, e.2))) = [] := by
      rw [← List.length_eq_zero, hlen, hK]
      rfl
    simp [hR, hK]
  · have hR : ¬ (recent.filterMap (fun e => (catAppids.findIdx? (fun a => a == e.1)).map
        (fun i => (i, e.2))) = []) := by
      intro h
      exact hK (by rw [← List.length_eq_zero, ← hlen, h]; rfl)
    rw [if_neg (by simpa [List.isEmpty_iff] using hR), if_neg hK]
    congr 1
    unfold sumVecs
    rw [foldl_addVec_eq_foldr, hmap, List.foldr_map]

/-- C9: building a profile vector from any permutation of the activity
list yields exactly the same profile over exact arithmetic — entry
resolution is pointwise and the vector sum is commutative and
associative. -/
theorem profile_vec_perm_invariant (ncols : Nat) (catAppids : List Int)
    (tfidf : List (List ℚ)) {l1 l2 : List (Int × ℚ)} (h : l1.Perm l2) :
    profile_vec ncols catAppids tfidf l1
      = profile_vec ncols catAppids tfidf l2 := by
  have hres : (l1.filterMap (fun e => (catAppids.findIdx? (fun a => a == e.1)).map
      (fun i => (i, e.2)))).Perm
      (l2.filterMap (fun e => (catAppids.findIdx? (fun a => a == e.1)).map
        (fun i => (i, e.2)))) := h.filterMap _
  have hmapped := hres.map (fun p => scaleVec p.2 (tfidf.getD p.1 []))
  have hlen12 := hres.length_eq
  have hempty : (l1.filterMap (fun e => (catAppids.findIdx? (fun a => a == e.1)).map
      (fun i => (i, e.2)))).isEmpty
      = (l2.filterMap (fun e => (catAppids.findIdx? (fun a => a == e.1)).map
        (fun i => (i, e.2)))).isEmpty := by
    cases hA : l1.filterMap (fun e => (catAppids.findIdx? (fun a => a == e.1)).map
        (fun i => (i, e.2))) with
    | nil =>
      cases hB : l2.filterMap (fun e => (catAppids.findIdx? (fun a => a == e.1)).map
          (fun i => (i, e.2))) with
      | nil => rfl
      | cons b bs => rw [hA, hB] at hlen12; simp at hlen12
    | cons a as =>
      cases hB : l2.filterMap (fun e => (catAppids.findIdx? (fun a => a == e.1)).map
          (fun i => (i, e.2))) with
      | nil => rw [hA, hB] at hlen12; simp at hlen12
      | cons b bs => rfl
  simp only [profile_vec] at *
  rw [hempty]
  by_cases he : (l2.filterMap (fun e => (catAppids.findIdx? (fun a => a == e.1)).map
      (fun i => (i, e.2)))).isEmpty
  · rw [if_pos he, if_pos he]
  · rw [if_neg he, if_neg he]
    congr 1
    unfold sumVecs
    exact hmapped.foldl_eq' (fun x _ y _ z => addVec_right_comm z x y) _

/-- Witness for C9: swapping the two entries of `[(1, 2), (2, 5)]` gives
the same profile `[2, 5]` in the two-item catalog. -/
theorem profile_vec_perm_invariant_w :
    ([((1 : Int), (2 : ℚ)), (2, 5)].Perm [((2 : Int), (5 : ℚ)), (1, 2)]) ∧
    profile_vec 2 [1, 2] [[1, 0], [0, 1]] [(1, 2), (2, 5)]
      = profile_vec 2 [1, 2] [[1, 0], [0, 1]] [(2, 5), (1, 2)] :=
  ⟨List.Perm.swap (2, 5) (1, 2) [],
   profile_vec_perm_invariant 2 [1, 2] [[1, 0], [0, 1]]
     (List.Perm.swap (2, 5) (1, 2) [])⟩

/-! ### The ranking pipeline -/

theorem sortedInsert_perm (x : ScoredRow) (l : List ScoredRow) :
    (sortedInsert x l).Perm (x :: l) := by
  induction l with
  | nil => exact List.Perm.refl _
  | cons y ys ih =>
    unfold sortedInsert
    by_cases h : x.score ≤ y.score
    · rw [if_pos h]
    · rw [if_neg h]
      exact (ih.cons y).trans (List.Perm.swap x y ys)

theorem sortAsc_perm (l : List ScoredRow) : (sortAsc l).Perm l := by
  induction l with
  | nil => exact List.Perm.refl _
  | cons x xs ih =>
    exact (sortedInsert_perm x (sortAsc xs)).trans (ih.cons x)

theorem sortAsc_length (l : List ScoredRow) : (sortAsc l).length = l.length :=
  (sortAsc_perm l).length_eq

theorem mem_zipWith_mk_cand {cands : List CandRow} {scores : List ℚ}
    {x : ScoredRow}
    (hx : x ∈ List.zipWith (fun c sc => ScoredRow.mk c sc) cands scores) :
    x.cand ∈ cands := by
  induction cands generalizing scores with
  | nil => simp at hx
  | cons c cs ih =>
    cases scores with
    | nil => simp at hx
    | cons sc scs =>
      rcases List.mem_cons.mp hx with rfl | h
      · exact List.Mem.head cs
      · exact List.Mem.tail c (ih h)

theorem candidatesOf_map_row (s : RecState) :
    (candidatesOf s).map (fun c => c.row)
      = s.catalog.filter (fun r => !(s.library.contains r.appid)) := by
  unfold candidatesOf
  rw [List.map_map]
  exact List.enum_map_snd _

theorem mem_scoredOf_cand {s : RecState}
    {cosine : List ℚ → List (List ℚ) → List ℚ}
    {my_recent friends_recent : List (Int × ℚ)} {alpha beta gamma : ℚ}
    {sr : ScoredRow}
    (h : sr ∈ scoredOf s cosine my_recent friends_recent alpha beta gamma) :
    sr.cand ∈ candidatesOf s := by
  simp only [scoredOf] at h
  exact mem_zipWith_mk_cand h

/-- C5: no item of the owned library ever appears in the ranked output,
for any cosine values, any ascending sort kernel (tie order immaterial),
any activity inputs, any k and any weights; and the candidate list is
exactly the catalog minus the library, in catalog order. -/
theorem recommend_excludes_owned (s : RecState)
    (cosine : List ℚ → List (List ℚ) → List ℚ)
    (kernel : List ScoredRow → List ScoredRow)
    (hker : ∀ l x, x ∈ kernel l → x ∈ l)
    (my_recent friends_recent : List (Int × ℚ)) (k : Nat)
    (alpha beta gamma : ℚ) :
    (∀ r ∈ recommend s cosine kernel my_recent friends_recent k alpha beta gamma,
      ¬ r.appid ∈ s.library) ∧
    (candidatesOf s).map (fun c => c.row)
      = s.catalog.filter (fun r => !(s.library.contains r.appid)) := by
  refine ⟨?_, candidatesOf_map_row s⟩
  intro r hr
  obtain ⟨sr, hsr, rfl⟩ := List.mem_map.mp hr
  have h1 : sr ∈ sort_values_desc kernel
      (scoredOf s cosine my_recent friends_recent alpha beta gamma) :=
    List.mem_of_mem_take hsr
  have h2 : sr ∈ scoredOf s cosine my_recent friends_recent alpha beta gamma := by
    unfold sort_values_desc at h1
    exact List.mem_reverse.mp
      (hker _ _ (List.mem_reverse.mp h1))
  have h3 : sr.cand ∈ candidatesOf s := mem_scoredOf_cand h2
  have h4 : sr.cand.row ∈ s.catalog.filter (fun r => !(s.library.contains r.appid)) := by
    rw [← candidatesOf_map_row s]
    exact List.mem_map_of_mem (fun c => c.row) h3
  have h5 := (List.mem_filter.mp h4).2
  intro hmem
  have h6 : ¬ (sr.cand.row.appid ∈ s.library) := by simpa using h5
  exact h6 (by simpa using hmem)

/-- Witness state for C5: a two-item catalog with item 5 owned. -/
def S5 : RecState :=
  { catalog := [⟨5, "A", "x"⟩, ⟨6, "B", "y"⟩]
    library := [5]
    vectorizer := fun ts => ts.map (fun _ => [0])
    tfidf_matrix := [[1], [1]]
    nfeatures := 1 }

/-- Witness for C5: in `S5` the top recommendation has appid 6, which is
not in the owned library `[5]`. -/
theorem recommend_excludes_owned_w :
    ¬ (((recommend S5 cos0 sortAsc [] [] 2 1 1 1).getD 0 ⟨0, "", 0⟩).appid
        ∈ S5.library) :=
  (recommend_excludes_owned S5 cos0 sortAsc
      (fun l x hx => (sortAsc_perm l).subset hx) [] [] 2 1 1 1).1
    ((recommend S5 cos0 sortAsc [] [] 2 1 1 1).getD 0 ⟨0, "", 0⟩)
    (by with_unfolding_all decide)

theorem scoredOf_length (s : RecState)
    (cosine : List ℚ → List (List ℚ) → List ℚ)
    (my_recent friends_recent : List (Int × ℚ)) (alpha beta gamma : ℚ)
    (htrans : ∀ ts, (s.vectorizer ts).length = ts.length)
    (hcos : ∀ v m, (cosine v m).length = m.length) :
    (scoredOf s cosine my_recent friends_recent alpha beta gamma).length
      = (candidatesOf s).length := by
  simp only [scoredOf]
  cases hme : profile_vec s.nfeatures (s.catalog.map (fun r => r.appid))
      s.tfidf_matrix my_recent with
  | none =>
    cases hfr : profile_vec s.nfeatures (s.catalog.map (fun r => r.appid))
        s.tfidf_matrix friends_recent with
    | none =>
      simp [addVec, scaleVec, raw_fr, List.length_zipWith,
        normalize_signal_length, hcos, htrans, Nat.min_self]
    | some vfr =>
      simp [addVec, scaleVec, raw_fr, List.length_zipWith,
        normalize_signal_length, hcos, htrans, Nat.min_self]
  | some vme =>
    cases hfr : profile_vec s.nfeatures (s.catalog.map (fun r => r.appid))
        s.tfidf_matrix friends_recent with
    | none =>
      simp [addVec, scaleVec, raw_fr, List.length_zipWith,
        normalize_signal_length, hcos, htrans, Nat.min_self]
    | some vfr =>
      simp [addVec, scaleVec, raw_fr, List.length_zipWith,
        normalize_signal_length, hcos, htrans, Nat.min_self]

/-- C6: for every k at least 1 (in fact for every k), the ranked output
has exactly `min k candidate_count` rows — fewer candidates than k is
not an error, the sort-truncate pipeline just returns everything. -/
theorem recommend_output_length (s : RecState)
    (cosine : List ℚ → List (List ℚ) → List ℚ)
    (kernel : List ScoredRow → List ScoredRow)
    (htrans : ∀ ts, (s.vectorizer ts).length = ts.length)
    (hcos : ∀ v m, (cosine v m).length = m.length)
    (hker : ∀ l, (kernel l).length = l.length)
    (my_recent friends_recent : List (Int × ℚ)) (k : Nat) (hk : 1 ≤ k)
    (alpha beta gamma : ℚ) :
    (recommend s cosine kernel my_recent friends_recent k alpha beta gamma).length
      = min k (candidatesOf s).length := by
  unfold recommend rankedRows sort_values_desc
  rw [List.length_map, List.length_take, List.length_reverse, hker,
    List.length_reverse,
    scoredOf_length s cosine my_recent friends_recent alpha beta gamma htrans hcos]

/-- Witness for C6: the three-candidate test state truncated to k = 2. -/
theorem recommend_output_length_w :
    (recommend testState cos0 sortAsc [] [] 2 1 1 1).length
      = min 2 (candidatesOf testState).length :=
  recommend_output_length testState cos0 sortAsc
    (fun ts => by simp [testState]) (fun v m => by simp [cos0])
    (fun l => sortAsc_length l) [] [] 2 (by decide) 1 1 1

/-- C8: a scoring call leaves the recommender state — catalog, library,
fitted vectorizer, tfidf matrix and its width — exactly as it was, for
every input: `recommend` only reads `self` and writes to the local
`candidates` copy. -/
theorem recommend_preserves_state (s : RecState)
    (cosine : List ℚ → List (List ℚ) → List ℚ)
    (kernel : List ScoredRow → List ScoredRow)
    (my_recent friends_recent : List (Int × ℚ)) (k : Nat)
    (alpha beta gamma : ℚ) :
    (recommendS s cosine kernel my_recent friends_recent k alpha beta gamma).2
      = s := rfl

/-- C2 as a concrete demonstration: with empty activity all three
candidates of `testState` tie at score 0.  The sort kernel is only
required to produce an ascending ordering (pandas documents the default
quicksort as not stable); the stable kernel `sortAsc` — what numpy
happens to run below 17 elements — yields catalog order `[1, 2, 3]`,
while the equally valid ascending kernel `sortAscA` yields `[3, 2, 1]`:
on tied scores the output order is a property of the unspecified kernel,
not of the code. -/
theorem ranking_tie_order_kernel_dependent :
    (∀ r ∈ recommend testState cos0 sortAscA [] [] 3 1 1 1, r.score = 0) ∧
    (recommend testState cos0 sortAsc [] [] 3 1 1 1).map (fun r => r.appid)
      = [1, 2, 3] ∧
    (recommend testState cos0 sortAscA [] [] 3 1 1 1).map (fun r => r.appid)
      = [3, 2, 1] ∧
    (sortAscA (scoredOf testState cos0 [] [] 1 1 1).reverse).Perm
      ((scoredOf testState cos0 [] [] 1 1 1).reverse) ∧
    List.Pairwise (fun a b : ScoredRow => a.score ≤ b.score)
      (sortAscA (scoredOf testState cos0 [] [] 1 1 1).reverse) := by
  refine ⟨by with_unfolding_all decide, by with_unfolding_all decide,
    by with_unfolding_all decide, by with_unfolding_all decide,
    by with_unfolding_all decide⟩

/-- C7 counterexample: an empty catalog fails construction with
sklearn's `ValueError` (there is no `DataError` anywhere in the code),
and a catalog missing the id column but carrying text fields constructs
successfully — `__init__` never reads the appid column. -/
theorem init_error_kinds_counterexample :
    initRecommender ⟨some [], some [], some [], some []⟩
      = .error ⟨"ValueError",
          "empty vocabulary; perhaps the documents only contain stop words"⟩ ∧
    "ValueError" ≠ "DataError" ∧
    initRecommender
        ⟨none, some ["A"], some [some "space shooter"], some [some "Action"]⟩
      = .ok ⟨["space shooter Action"], ["space", "shooter", "action"]⟩ := by
  refine ⟨by with_unfolding_all decide, by with_unfolding_all decide,
    by with_unfolding_all decide⟩

/-- C7 (amended): construction fails — but with `KeyError` (missing
description/genres column, description checked first) or sklearn's
`ValueError` (empty fitted vocabulary, in particular an empty catalog),
never with a `DataError`, which does not exist in the program; and a
missing id column alone does not make construction fail. -/
theorem init_error_characterization (raw : RawCatalog) :
    (raw.description = none → errType (initRecommender raw) = some "KeyError") ∧
    (∀ dcol, raw.description = some dcol → raw.genres = none →
      errType (initRecommender raw) = some "KeyError") ∧
    (∀ dcol gcol, raw.description = some dcol → raw.genres = some gcol →
      vocabularyOf (List.zipWith
        (fun d g => (Option.getD d "") ++ " " ++ (Option.getD g "")) dcol gcol)
        = [] →
      errType (initRecommender raw) = some "ValueError") ∧
    (∀ dcol gcol, raw.description = some dcol → raw.genres = some gcol →
      ¬ (vocabularyOf (List.zipWith
          (fun d g => (Option.getD d "") ++ " " ++ (Option.getD g "")) dcol gcol)
        = []) →
      initRecommender raw
        = .ok ⟨List.zipWith
            (fun d g => (Option.getD d "") ++ " " ++ (Option.getD g "")) dcol gcol,
          vocabularyOf (List.zipWith
            (fun d g => (Option.getD d "") ++ " " ++ (Option.getD g "")) dcol gcol)⟩) ∧
    (errType (initRecommender raw) ≠ some "DataError") := by
  obtain ⟨ra, rn, rd, rg⟩ := raw
  refine ⟨?_, ?_, ?_, ?_, ?_⟩
  · intro h
    cases rd with
    | none => rfl
    | some d => simp at h
  · intro dcol hd hg
    cases rd with
    | none => simp at hd
    | some d =>
      cases rg with
      | none => rfl
      | some g => simp at hg
  · intro dcol gcol hd hg hvocab
    cases rd with
    | none => simp at hd
    | some d =>
      cases rg with
      | none => simp at hg
      | some g =>
        have hd' : d = dcol := by simpa using hd
        have hg' : g = gcol := by simpa using hg
        subst hd'
        subst hg'
        unfold initRecommender
        simp only
        rw [if_pos hvocab]
        rfl
  · intro dcol gcol hd hg hvocab
    cases rd with
    | none => simp at hd
    | some d =>
      cases rg with
      | none => simp at hg
      | some g =>
        have hd' : d = dcol := by simpa using hd
        have hg' : g = gcol := by simpa using hg
        subst hd'
        subst hg'
        unfold initRecommender
        simp only
        rw [if_neg hvocab]
  · cases rd with
    | none => simp [initRecommender, errType]
    | some d =>
      cases rg with
      | none => simp [initRecommender, errType]
      | some g =>
        unfold initRecommender
        simp only
        by_cases hvocab : vocabularyOf (List.zipWith
            (fun dd gg => (Option.getD dd "") ++ " " ++ (Option.getD gg "")) d g)
            = []
        · rw [if_pos hvocab]
          simp [errType]
        · rw [if_neg hvocab]
          simp [errType]

/-- Witness for C7: the missing-description catalog raises `KeyError`;
the empty catalog raises `ValueError`. -/
theorem init_error_characterization_w :
    errType (initRecommender ⟨some [], some [], none, some []⟩)
      = some "KeyError" ∧
    errType (initRecommender ⟨some [], some [], some [], some []⟩)
      = some "ValueError" :=
  ⟨(init_error_characterization ⟨some [], some [], none, some []⟩).1 rfl,
   (init_error_characterization ⟨some [], some [], some [], some []⟩).2.2.1
     [] [] rfl rfl (by with_unfolding_all decide)⟩
